import Mathlib

/-!
Verification of the Orca repository (a Redis-like TCP server stub) against
its natural-language specification.

The embedding below follows the JavaScript source:
* app/parser.js : function RunCommand, a switch on command.trim().toUpperCase()
  with the single case PING returning "+PONG\r\n" and a default returning
  the template string "Unknown command: " followed by the raw input.
* the unnamed server file: net.createServer whose callback, for each data
  chunk, logs it and writes RunCommand(data.toString()) back on the
  connection.

Strings are modelled as Lean String values (lists of characters); the
JavaScript trim and toUpperCase operations are embedded character by
character below.
-/

namespace Orca

/-- Code points removed by the JavaScript String.prototype.trim: the
WhiteSpace production (TAB, LF, VT, FF, CR, SP, NBSP, ZWNBSP and the
Unicode space separators) together with the line terminators U+2028 and
U+2029. -/
def jsWhitespace (c : Char) : Bool :=
  c.toNat ∈ [0x9, 0xA, 0xB, 0xC, 0xD, 0x20, 0xA0, 0x1680,
    0x2000, 0x2001, 0x2002, 0x2003, 0x2004, 0x2005, 0x2006, 0x2007,
    0x2008, 0x2009, 0x200A, 0x2028, 0x2029, 0x202F, 0x205F, 0x3000, 0xFEFF]

/-- Character-level embedding of the JavaScript toUpperCase as it acts on
the inputs compared against the ASCII literal PING: ASCII lowercase maps
up by 32, and U+0131 (dotless i) has simple uppercase mapping I; every
other character relevant to a comparison with an ASCII literal is fixed. -/
def upperChar (c : Char) : Char :=
  if 97 ≤ c.toNat ∧ c.toNat ≤ 122 then Char.ofNat (c.toNat - 32)
  else if c.toNat = 0x131 then 'I' else c

/-- Both-ends whitespace removal, as String.prototype.trim does. -/
def trimChars (l : List Char) : List Char :=
  ((l.dropWhile jsWhitespace).reverse.dropWhile jsWhitespace).reverse

/-- Embedding of command.trim() from parser.js. -/
def jsTrimStr (s : String) : String := String.mk (trimChars s.data)

/-- Embedding of .toUpperCase() from parser.js. -/
def toUpperStr (s : String) : String := String.mk (s.data.map upperChar)

/-- Embedding of RunCommand from app/parser.js: switch on
command.trim().toUpperCase(); the case PING returns "+PONG\r\n"; the
default returns "Unknown command: " followed by the raw untrimmed input. -/
def RunCommand (command : String) : String :=
  if toUpperStr (jsTrimStr command) = "PING" then "+PONG\r\n"
  else "Unknown command: " ++ command

/-- Embedding of the net.createServer callback of the server file: for
each received data chunk, in order, one write of RunCommand applied to the
chunk text. The connection is modelled by the list of its data chunks and
the result is the list of writes the callback performs. -/
def connectionWrites : List String → List String
  | [] => []
  | data :: rest => RunCommand data :: connectionWrites rest

/-- First character of the reply, for checking RESP type tags. -/
def respTagged (s : String) : Bool :=
  match s.data.head? with
  | some c => c = '+' || c = '-' || c = ':' || c = '$' || c = '*'
  | none => false

/-- Whether a string ends with the two characters CR LF. -/
def endsCRLF (s : String) : Bool :=
  match s.data.reverse with
  | a :: b :: _ => a = '\n' && b = '\r'
  | _ => false

lemma jsWhitespace_upperChar_fixed {c : Char} (h : jsWhitespace c = true) :
    upperChar c = c := by
  simp [jsWhitespace] at h
  unfold upperChar
  rw [if_neg (by omega), if_neg (by omega)]

lemma ws_false_of_upper_eq {a t : Char} (h : upperChar a = t)
    (ht : jsWhitespace t = false) : jsWhitespace a = false := by
  by_contra hcon
  have hws : jsWhitespace a = true := by
    revert hcon; cases jsWhitespace a <;> simp
  have hat : a = t := by rw [← h, jsWhitespace_upperChar_fixed hws]
  rw [hat] at hws
  rw [hws] at ht
  exact Bool.noConfusion ht

/-- Claim C1: sending PING yields exactly the encoded RESP simple string
reply "+PONG\r\n" from the dispatcher RunCommand. -/
theorem c1_ping_returns_pong : RunCommand "PING" = "+PONG\r\n" := by decide

/-- Claim C2, counterexample: the unknown-command reply is not the RESP
error encoding. At the input FOO the dispatcher returns the plain string
"Unknown command: FOO", which does not start with the dash of the error
encoding, contradicting the claim that unknown commands are reported with
the dash-encoded error reply. -/
theorem c2_counterexample_unknown_not_dash_encoded :
    RunCommand "FOO" = "Unknown command: FOO"
    ∧ respTagged (RunCommand "FOO") = false := by decide

/-- Claim C2, amended: for every command whose trimmed uppercased name is
not PING (the only table entry of the stub), the dispatcher returns the
plain string "Unknown command: " followed by the raw input, before any
handler runs; the reply carries no RESP type tag at all, in particular it
is not the dash error encoding, and the connection stays open (the
dispatcher returns normally). -/
theorem c2_unknown_command_plain_reply (s : String)
    (h : toUpperStr (jsTrimStr s) ≠ "PING") :
    RunCommand s = "Unknown command: " ++ s
    ∧ respTagged (RunCommand s) = false := by
  have hr : RunCommand s = "Unknown command: " ++ s := by
    unfold RunCommand
    rw [if_neg h]
  refine ⟨hr, ?_⟩
  rw [hr]
  rfl

/-- Witness for the amended claim C2 at the concrete input FOO. -/
theorem c2_unknown_command_plain_reply_witness :
    toUpperStr (jsTrimStr "FOO") ≠ "PING"
    ∧ (RunCommand "FOO" = "Unknown command: " ++ "FOO"
        ∧ respTagged (RunCommand "FOO") = false) :=
  ⟨by decide, c2_unknown_command_plain_reply "FOO" (by decide)⟩

/-- Claim C3, counterexample: the stub has no SET and no GET handler and
no store. After SET foo bar, the command GET foo is answered with
"Unknown command: GET foo", not with the value bar in any reply encoding. -/
theorem c3_counterexample_get_not_bar :
    RunCommand "SET foo bar" = "Unknown command: SET foo bar"
    ∧ RunCommand "GET foo" = "Unknown command: GET foo"
    ∧ RunCommand "GET foo" ≠ "bar"
    ∧ RunCommand "GET foo" ≠ "+bar\r\n"
    ∧ RunCommand "GET foo" ≠ "$3\r\nbar\r\n" := by decide

/-- Claim C3, amended: SET and GET are not in the dispatcher of the stub;
the dispatcher is stateless, and both commands receive the unknown-command
reply carrying their raw text, so GET foo never yields bar. -/
theorem c3_set_get_unimplemented :
    RunCommand "SET foo bar" = "Unknown command: " ++ "SET foo bar"
    ∧ RunCommand "GET foo" = "Unknown command: " ++ "GET foo" := by decide

/-- Claim C4: command-name lookup is case-insensitive. Every input whose
characters uppercase to exactly PING, the single table entry, resolves to
the same branch and yields the same reply as the input PING. -/
theorem c4_case_insensitive_ping (s : String)
    (h : s.data.map upperChar = "PING".data) :
    RunCommand s = RunCommand "PING" := by
  rcases hl : s.data with _ | ⟨a, _ | ⟨b, _ | ⟨c, _ | ⟨d, _ | ⟨e, t⟩⟩⟩⟩⟩ <;>
    rw [hl] at h <;> simp [List.map] at h
  obtain ⟨ha, hb, hc, hd⟩ := h
  have hwa : jsWhitespace a = false := ws_false_of_upper_eq ha (by decide)
  have hwd : jsWhitespace d = false := ws_false_of_upper_eq hd (by decide)
  have key : toUpperStr (jsTrimStr s) = "PING" := by
    show String.mk ((trimChars s.data).map upperChar) = "PING"
    rw [hl]
    simp [trimChars, List.dropWhile, hwa, hwd, ha, hb, hc, hd]
  unfold RunCommand
  rw [if_pos key]
  decide

/-- Witness for claim C4 at the concrete input pIng. -/
theorem c4_case_insensitive_ping_witness :
    "pIng".data.map upperChar = "PING".data
    ∧ RunCommand "pIng" = RunCommand "PING" :=
  ⟨by decide, c4_case_insensitive_ping "pIng" (by decide)⟩

/-- Claim C5: the connection callback performs exactly one write per
received data chunk, in order, and the content of the i-th write is the
dispatcher result RunCommand applied to the i-th chunk. -/
theorem c5_one_write_per_chunk (chunks : List String) :
    (connectionWrites chunks).length = chunks.length
    ∧ ∀ i : Nat, (connectionWrites chunks).get? i = (chunks.get? i).map RunCommand := by
  induction chunks with
  | nil => exact ⟨rfl, fun i => by cases i <;> rfl⟩
  | cons d rest ih =>
    refine ⟨by simp [connectionWrites, ih.1], fun i => ?_⟩
    cases i with
    | zero => rfl
    | succ n => simpa [connectionWrites] using ih.2 n

/-- Claim C6: command handling is deterministic in its declared inputs.
RunCommand reads nothing but its argument (the stub has no store,
coordinator or hub state), so equal argument strings give equal replies,
and every invocation produces exactly one reply value. -/
theorem c6_run_command_deterministic (s₁ s₂ : String) (h : s₁ = s₂) :
    RunCommand s₁ = RunCommand s₂ ∧ ∃! r : String, RunCommand s₁ = r := by
  subst h
  exact ⟨rfl, RunCommand s₁, rfl, fun r hr => hr.symm⟩

/-- Witness for claim C6 at the concrete input PING. -/
theorem c6_run_command_deterministic_witness :
    ("PING" : String) = "PING"
    ∧ (RunCommand "PING" = RunCommand "PING"
        ∧ ∃! r : String, RunCommand "PING" = r) :=
  ⟨rfl, c6_run_command_deterministic "PING" "PING" rfl⟩

/-- Claim C9, counterexample: the claim asserts the unknown-command reply
is never CRLF-terminated, but the raw client input is embedded verbatim,
so a client input that itself ends in CRLF produces a CRLF-terminated
reply. -/
theorem c9_counterexample_crlf_terminated_reply :
    RunCommand "FOO\r\n" = "Unknown command: FOO\r\n"
    ∧ endsCRLF (RunCommand "FOO\r\n") = true := by decide

lemma endsCRLF_unknown (s : String) :
    endsCRLF ("Unknown command: " ++ s) = endsCRLF s := by
  show endsCRLF (String.mk ("Unknown command: ".data ++ s.data)) = endsCRLF s
  unfold endsCRLF
  rw [show (String.mk ("Unknown command: ".data ++ s.data)).data
      = "Unknown command: ".data ++ s.data from rfl]
  rw [List.reverse_append]
  rcases hrev : s.data.reverse with _ | ⟨a, _ | ⟨b, t⟩⟩
  · decide
  · simp
  · simp

/-- Claim C9, amended: complete characterization of the dispatcher stub.
For every input string s, RunCommand returns "+PONG\r\n" when s trimmed
and uppercased equals PING, and otherwise returns "Unknown command: "
followed by the raw s verbatim; that reply carries the client-controlled
input unsanitized, never begins with a RESP type tag, and receives no
code-added CRLF terminator: it ends in CRLF exactly when the client input
itself does. -/
theorem c9_stub_characterization (s : String) :
    (toUpperStr (jsTrimStr s) = "PING" → RunCommand s = "+PONG\r\n")
    ∧ (toUpperStr (jsTrimStr s) ≠ "PING" →
        RunCommand s = "Unknown command: " ++ s
        ∧ respTagged (RunCommand s) = false
        ∧ endsCRLF (RunCommand s) = endsCRLF s) := by
  constructor
  · intro h
    unfold RunCommand
    rw [if_pos h]
  · intro h
    have hr : RunCommand s = "Unknown command: " ++ s := by
      unfold RunCommand
      rw [if_neg h]
    refine ⟨hr, ?_, ?_⟩
    · rw [hr]; rfl
    · rw [hr]
      exact endsCRLF_unknown s

/-- Witness for the amended claim C9, at the PING-matching input
" ping " and at the CRLF-carrying unknown input FOO CR LF. -/
theorem c9_stub_characterization_witness :
    RunCommand " ping " = "+PONG\r\n"
    ∧ (RunCommand "FOO\r\n" = "Unknown command: " ++ "FOO\r\n"
        ∧ respTagged (RunCommand "FOO\r\n") = false
        ∧ endsCRLF (RunCommand "FOO\r\n") = endsCRLF "FOO\r\n") :=
  ⟨(c9_stub_characterization " ping ").1 (by decide),
   (c9_stub_characterization "FOO\r\n").2 (by decide)⟩

/-- Claim C10: RunCommand is total on strings. It is a plain function of
its string argument, and every input takes exactly one of the two
branches: the PING branch or the default branch. -/
theorem c10_run_command_total (s : String) :
    RunCommand s = "+PONG\r\n" ∨ RunCommand s = "Unknown command: " ++ s := by
  unfold RunCommand
  split
  · exact Or.inl rfl
  · exact Or.inr rfl

/-!
Modelled from the spec: the repository has no protocol codec yet (the
spec describes it in its sections 4.1 and 8 and the README lists it as
future work), so the reply representation and the encode and decode
functions below are modelled from the words of the spec: replies are
simple strings (plus form), errors (dash form), integers (colon form),
length-prefixed bulk strings (dollar form, with the minus-one null
sentinel), arrays (star form, with the minus-one null sentinel), each
line terminated by CR LF. Lengths count characters.
-/

namespace Codec

/-- One decimal digit character. -/
def digitChar (n : Nat) : Char :=
  match n with
  | 0 => '0' | 1 => '1' | 2 => '2' | 3 => '3' | 4 => '4'
  | 5 => '5' | 6 => '6' | 7 => '7' | 8 => '8' | _ => '9'

/-- Fuel-bounded digit accumulator; the fuel never runs out when it is at
least the number being printed. -/
def digitsGo : Nat → Nat → List Char → List Char
  | 0, n, acc => digitChar n :: acc
  | fuel + 1, n, acc =>
    if n < 10 then digitChar n :: acc
    else digitsGo fuel (n / 10) (digitChar (n % 10) :: acc)

/-- Decimal digits of a natural number, most significant first. -/
def natToDigits (n : Nat) : List Char := digitsGo n n []

/-- Value of a decimal digit string. -/
def digitsToNat (l : List Char) : Nat :=
  l.foldl (fun a c => 10 * a + (c.toNat - 48)) 0

/-- Decimal digit test. -/
def isDigitB (c : Char) : Bool := decide (48 ≤ c.toNat ∧ c.toNat ≤ 57)

/-- Parse a nonempty all-digit string. -/
def parseNatDigits (l : List Char) : Option Nat :=
  if l.isEmpty then none
  else if l.all isDigitB then some (digitsToNat l) else none

/-- Parse an optionally minus-signed decimal integer. -/
def parseInt (l : List Char) : Option Int :=
  if l.head? = some '-' then (parseNatDigits l.tail).map Int.negOfNat
  else (parseNatDigits l).map Int.ofNat

/-- Read one CR-LF-terminated line: the characters before the first CR,
requiring an LF right after it; the rest of the input is returned. -/
def readLine : List Char → Option (List Char × List Char)
  | [] => none
  | c :: rest =>
    if c = '\r' then
      match rest with
      | '\n' :: r => some (([] : List Char), r)
      | _ => none
    else (readLine rest).map (fun p => (c :: p.1, p.2))

/-- Modelled from the spec: the reply representation of the codec.
Simple string, error, integer, bulk string, null bulk, array, null
array. -/
inductive Reply where
  | simple (s : List Char)
  | err (s : List Char)
  | integer (i : Int)
  | bulk (s : List Char)
  | nullBulk
  | array (items : List Reply)
  | nullArray

/-- Sign-and-digits form of an integer. -/
def intToChars (i : Int) : List Char :=
  if i < 0 then '-' :: natToDigits i.natAbs else natToDigits i.toNat

mutual

/-- Modelled from the spec: wire encoding of one reply value. -/
def encode : Reply → List Char
  | .simple s => '+' :: (s ++ ['\r', '\n'])
  | .err s => '-' :: (s ++ ['\r', '\n'])
  | .integer i => ':' :: (intToChars i ++ ['\r', '\n'])
  | .bulk s => '$' :: (natToDigits s.length ++ ('\r' :: '\n' :: (s ++ ['\r', '\n'])))
  | .nullBulk => ['$', '-', '1', '\r', '\n']
  | .array items => '*' :: (natToDigits items.length ++ ('\r' :: '\n' :: encodeList items))
  | .nullArray => ['*', '-', '1', '\r', '\n']

/-- Concatenated encodings of the items of an array. -/
def encodeList : List Reply → List Char
  | [] => []
  | v :: vs => encode v ++ encodeList vs

end

mutual

/-- The fuel a decoder needs for one reply value. -/
def size : Reply → Nat
  | .array items => 1 + sizeList items
  | _ => 1

/-- The fuel a decoder needs for a list of reply values. -/
def sizeList : List Reply → Nat
  | [] => 1
  | v :: vs => 1 + size v + sizeList vs

end

/-- Whether a line-carried string is free of CR and LF. -/
def noCRLF (s : List Char) : Bool :=
  s.all (fun c => decide (c ≠ '\r' ∧ c ≠ '\n'))

mutual

/-- A supported reply value: the line-carried payloads of simple strings
and errors contain no CR or LF, as the framing requires; bulk strings are
length-prefixed and unrestricted. -/
def validB : Reply → Bool
  | .simple s => noCRLF s
  | .err s => noCRLF s
  | .array items => validListB items
  | _ => true

/-- All items of an array are supported reply values. -/
def validListB : List Reply → Bool
  | [] => true
  | v :: vs => validB v && validListB vs

end

/-- The tail of a bulk-string frame after the length line: the payload of
the declared length followed by CR LF. -/
def bulkTail (n : Nat) (r : List Char) : Option (Reply × List Char) :=
  match r.drop n with
  | '\r' :: '\n' :: r2 =>
    if (r.take n).length = n then some (Reply.bulk (r.take n), r2) else none
  | _ => none

mutual

/-- Modelled from the spec: fuel-bounded decoder for one reply value,
returning the value and the unconsumed input. -/
def decodeVal : Nat → List Char → Option (Reply × List Char)
  | 0, _ => none
  | _ + 1, [] => none
  | fuel + 1, c :: rest =>
    if c = '+' then (readLine rest).map (fun p => (Reply.simple p.1, p.2))
    else if c = '-' then (readLine rest).map (fun p => (Reply.err p.1, p.2))
    else if c = ':' then
      (readLine rest).bind (fun p =>
        (parseInt p.1).map (fun i => (Reply.integer i, p.2)))
    else if c = '$' then
      (readLine rest).bind (fun p =>
        (parseInt p.1).bind (fun i =>
          if i = -1 then some (Reply.nullBulk, p.2)
          else if i < 0 then none
          else bulkTail i.toNat p.2))
    else if c = '*' then
      (readLine rest).bind (fun p =>
        (parseInt p.1).bind (fun i =>
          if i = -1 then some (Reply.nullArray, p.2)
          else if i < 0 then none
          else (decodeList fuel i.toNat p.2).map (fun q => (Reply.array q.1, q.2))))
    else none

/-- Fuel-bounded decoder for a counted sequence of reply values. -/
def decodeList : Nat → Nat → List Char → Option (List Reply × List Char)
  | 0, _, _ => none
  | _ + 1, 0, r => some (([] : List Reply), r)
  | fuel + 1, n + 1, r =>
    (decodeVal fuel r).bind (fun p =>
      (decodeList fuel n p.2).map (fun q => (p.1 :: q.1, q.2)))

end

/-- Modelled from the spec: decoding one complete reply from the wire,
requiring the whole input to be consumed. -/
def decode (input : List Char) : Option Reply :=
  match decodeVal (input.length + 1) input with
  | some (v, []) => some v
  | _ => none

lemma digitsGo_append (fuel : Nat) :
    ∀ n acc, digitsGo fuel n acc = digitsGo fuel n [] ++ acc := by
  induction fuel with
  | zero => intro n acc; simp [digitsGo]
  | succ f ih =>
    intro n acc
    by_cases h : n < 10
    · simp [digitsGo, h]
    · rw [digitsGo, digitsGo, if_neg h, if_neg h, ih (n / 10), ih (n / 10) [digitChar (n % 10)]]
      simp

lemma digitsGo_fuel : ∀ n f1 f2 acc, n ≤ f1 → n ≤ f2 →
    digitsGo f1 n acc = digitsGo f2 n acc := by
  intro n
  induction n using Nat.strong_induction_on with
  | _ n ih =>
    intro f1 f2 acc h1 h2
    by_cases h : n < 10
    · cases f1 with
      | zero =>
        cases f2 with
        | zero => rfl
        | succ g => simp [digitsGo, h]
      | succ g =>
        cases f2 with
        | zero => simp [digitsGo, h]
        | succ g2 => simp [digitsGo, h]
    · have hn : 1 ≤ n := by omega
      cases f1 with
      | zero => omega
      | succ g =>
        cases f2 with
        | zero => omega
        | succ g2 =>
          rw [digitsGo, digitsGo, if_neg h, if_neg h]
          exact ih (n / 10) (Nat.div_lt_self (by omega) (by omega)) g g2 _
            (by omega) (by omega)

lemma natToDigits_eq (n : Nat) :
    natToDigits n = if n < 10 then [digitChar n]
      else natToDigits (n / 10) ++ [digitChar (n % 10)] := by
  by_cases h : n < 10
  · rw [if_pos h]
    unfold natToDigits
    cases n with
    | zero => rfl
    | succ m => simp [digitsGo, h]
  · rw [if_neg h]
    unfold natToDigits
    cases hn : n with
    | zero => omega
    | succ m =>
      rw [digitsGo, if_neg (hn ▸ h), digitsGo_append]
      have hfuel : digitsGo m (n / 10) [] = digitsGo (n / 10) (n / 10) [] := by
        exact digitsGo_fuel (n / 10) m (n / 10) []
          (by omega) (le_refl _)
      rw [hn] at hfuel
      rw [hfuel]

lemma digitChar_toNat {n : Nat} (h : n < 10) : (digitChar n).toNat = 48 + n := by
  interval_cases n <;> rfl

lemma natToDigits_all_digits (n : Nat) :
    ∀ c ∈ natToDigits n, 48 ≤ c.toNat ∧ c.toNat ≤ 57 := by
  induction n using Nat.strong_induction_on with
  | _ n ih =>
    intro c hc
    rw [natToDigits_eq] at hc
    by_cases h : n < 10
    · rw [if_pos h] at hc
      simp at hc
      rw [hc, digitChar_toNat h]
      omega
    · rw [if_neg h] at hc
      rcases List.mem_append.mp hc with h1 | h2
      · exact ih (n / 10) (Nat.div_lt_self (by omega) (by omega)) c h1
      · simp at h2
        rw [h2, digitChar_toNat (Nat.mod_lt n (by omega))]
        have := Nat.mod_lt n (show 0 < 10 by omega)
        omega

lemma natToDigits_ne_nil (n : Nat) : natToDigits n ≠ [] := by
  rw [natToDigits_eq]
  by_cases h : n < 10
  · simp [h]
  · simp [h]

lemma foldl_natToDigits (n : Nat) : ∀ a : Nat,
    (natToDigits n).foldl (fun a c => 10 * a + (c.toNat - 48)) a
      = a * 10 ^ (natToDigits n).length + n := by
  induction n using Nat.strong_induction_on with
  | _ n ih =>
    intro a
    rw [natToDigits_eq]
    by_cases h : n < 10
    · rw [if_pos h]
      simp [List.foldl, digitChar_toNat h]
      omega
    · rw [if_neg h]
      rw [List.foldl_append, ih (n / 10) (Nat.div_lt_self (by omega) (by omega)) a]
      simp [List.foldl, digitChar_toNat (Nat.mod_lt n (show 0 < 10 by omega))]
      rw [Nat.pow_succ]
      set K := 10 ^ (natToDigits (n / 10)).length
      have hmod2 : 10 * (n / 10) + n % 10 = n := by omega
      calc 10 * (a * K + n / 10) + n % 10
          = a * (K * 10) + (10 * (n / 10) + n % 10) := by ring
        _ = a * (K * 10) + n := by rw [hmod2]

lemma digitsToNat_natToDigits (n : Nat) : digitsToNat (natToDigits n) = n := by
  unfold digitsToNat
  rw [foldl_natToDigits n 0]
  omega

lemma parseNatDigits_natToDigits (n : Nat) :
    parseNatDigits (natToDigits n) = some n := by
  unfold parseNatDigits
  rw [if_neg, if_pos]
  · rw [digitsToNat_natToDigits]
  · rw [List.all_eq_true]
    intro c hc
    have := natToDigits_all_digits n c hc
    simp [isDigitB]
    omega
  · simp [List.isEmpty_iff]
    exact natToDigits_ne_nil n

lemma natToDigits_head_not_dash (n : Nat) :
    (natToDigits n).head? ≠ some '-' := by
  intro h
  have hmem : '-' ∈ natToDigits n := by
    cases hl : natToDigits n with
    | nil => rw [hl] at h; simp at h
    | cons a t =>
      rw [hl] at h
      simp at h
      rw [h]
      exact List.mem_cons_self _ _
  have := natToDigits_all_digits n '-' hmem
  simp at this

lemma parseInt_natToDigits (n : Nat) :
    parseInt (natToDigits n) = some (n : Int) := by
  unfold parseInt
  rw [if_neg (natToDigits_head_not_dash n), parseNatDigits_natToDigits]
  rfl

lemma parseInt_intToChars (i : Int) : parseInt (intToChars i) = some i := by
  unfold intToChars
  by_cases h : i < 0
  · rw [if_pos h]
    unfold parseInt
    have hc : ('-' :: natToDigits i.natAbs).head? = some '-' := rfl
    rw [if_pos hc]
    have ht : ('-' :: natToDigits i.natAbs).tail = natToDigits i.natAbs := rfl
    rw [ht, parseNatDigits_natToDigits, Option.map_some']
    have hval : Int.negOfNat i.natAbs = i := by
      rw [Int.negOfNat_eq, Int.ofNat_eq_natCast]
      omega
    rw [hval]
  · rw [if_neg h]
    rw [parseInt_natToDigits]
    congr 1
    omega

lemma not_cr_natToDigits (n : Nat) : '\r' ∉ natToDigits n := by
  intro hmem
  have := natToDigits_all_digits n '\r' hmem
  simp at this

lemma not_cr_intToChars (i : Int) : '\r' ∉ intToChars i := by
  unfold intToChars
  by_cases h : i < 0
  · rw [if_pos h]
    intro hmem
    rcases List.mem_cons.mp hmem with h1 | h2
    · exact absurd h1 (by decide)
    · exact not_cr_natToDigits _ h2
  · rw [if_neg h]
    exact not_cr_natToDigits _

lemma readLine_append (s r : List Char) (h : '\r' ∉ s) :
    readLine (s ++ '\r' :: '\n' :: r) = some (s, r) := by
  induction s with
  | nil => rfl
  | cons a t ih =>
    have ha : ¬(a = '\r') := fun hh => h (hh ▸ List.mem_cons_self a t)
    have ht : '\r' ∉ t := fun hh => h (List.mem_cons_of_mem a hh)
    simp [List.cons_append, readLine, ha, ih ht]

lemma noCRLF_not_cr {s : List Char} (h : noCRLF s = true) : '\r' ∉ s := by
  intro hmem
  rw [noCRLF, List.all_eq_true] at h
  have := h '\r' hmem
  simp at this

lemma take_len_append (l t : List Char) : (l ++ t).take l.length = l := by
  induction l with
  | nil => rfl
  | cons a l ih => simp [ih]

lemma drop_len_append (l t : List Char) : (l ++ t).drop l.length = t := by
  induction l with
  | nil => rfl
  | cons a l ih => simp [ih]

lemma size_pos (v : Reply) : 1 ≤ size v := by
  cases v <;> simp [size]

lemma sizeList_pos (l : List Reply) : 1 ≤ sizeList l := by
  cases l with
  | nil => simp [sizeList]
  | cons v vs => simp only [sizeList]; omega

lemma natToDigits_length_pos (n : Nat) : 1 ≤ (natToDigits n).length := by
  cases hl : natToDigits n with
  | nil => exact absurd hl (natToDigits_ne_nil n)
  | cons a t => simp

lemma bulkTail_exact (s r : List Char) :
    bulkTail s.length (s ++ '\r' :: '\n' :: r) = some (Reply.bulk s, r) := by
  unfold bulkTail
  rw [drop_len_append, take_len_append]
  simp

lemma decodeVal_plus (f : Nat) (X : List Char) :
    decodeVal (f + 1) ('+' :: X)
      = (readLine X).map (fun p => (Reply.simple p.1, p.2)) := rfl

lemma decodeVal_dash (f : Nat) (X : List Char) :
    decodeVal (f + 1) ('-' :: X)
      = (readLine X).map (fun p => (Reply.err p.1, p.2)) := rfl

lemma decodeVal_colon (f : Nat) (X : List Char) :
    decodeVal (f + 1) (':' :: X)
      = (readLine X).bind (fun p =>
          (parseInt p.1).map (fun i => (Reply.integer i, p.2))) := rfl

lemma decodeVal_dollar (f : Nat) (X : List Char) :
    decodeVal (f + 1) ('$' :: X)
      = (readLine X).bind (fun p =>
          (parseInt p.1).bind (fun i =>
            if i = -1 then some (Reply.nullBulk, p.2)
            else if i < 0 then none
            else bulkTail i.toNat p.2)) := rfl

lemma decodeVal_star (f : Nat) (X : List Char) :
    decodeVal (f + 1) ('*' :: X)
      = (readLine X).bind (fun p =>
          (parseInt p.1).bind (fun i =>
            if i = -1 then some (Reply.nullArray, p.2)
            else if i < 0 then none
            else (decodeList f i.toNat p.2).map
              (fun q => (Reply.array q.1, q.2)))) := rfl

lemma decodeList_succ (f n : Nat) (r : List Char) :
    decodeList (f + 1) (n + 1) r
      = (decodeVal f r).bind (fun p =>
          (decodeList f n p.2).map (fun q => (p.1 :: q.1, q.2))) := rfl

mutual

theorem size_le_encode : (v : Reply) → size v + 2 ≤ (encode v).length
  | .simple s => by
      simp only [size, encode, List.length_cons, List.length_append]
      omega
  | .err s => by
      simp only [size, encode, List.length_cons, List.length_append]
      omega
  | .integer i => by
      simp only [size, encode, List.length_cons, List.length_append]
      omega
  | .bulk s => by
      simp only [size, encode, List.length_cons, List.length_append]
      omega
  | .nullBulk => by simp [size, encode]
  | .array items => by
      have h := sizeList_le_encodeList items
      have hd := natToDigits_length_pos items.length
      simp only [size, encode, List.length_cons, List.length_append]
      omega
  | .nullArray => by simp [size, encode]

theorem sizeList_le_encodeList :
    (items : List Reply) → sizeList items ≤ (encodeList items).length + 1
  | [] => by simp [sizeList, encodeList]
  | v :: vs => by
      have h1 := size_le_encode v
      have h2 := sizeList_le_encodeList vs
      simp only [sizeList, encodeList, List.length_append]
      omega

end

theorem decode_encode_aux (fuel : Nat) :
    (∀ v : Reply, validB v = true → ∀ rest : List Char, size v ≤ fuel →
      decodeVal fuel (encode v ++ rest) = some (v, rest))
    ∧ (∀ items : List Reply, validListB items = true → ∀ rest : List Char,
        sizeList items ≤ fuel →
        decodeList fuel items.length (encodeList items ++ rest) = some (items, rest)) := by
  induction fuel with
  | zero =>
    constructor
    · intro v _ rest hs
      exact absurd hs (by have := size_pos v; omega)
    · intro items _ rest hs
      exact absurd hs (by have := sizeList_pos items; omega)
  | succ f ih =>
    constructor
    · intro v hv rest hs
      cases v with
      | simple s =>
        have hcr : '\r' ∉ s := noCRLF_not_cr (by simpa [validB] using hv)
        show decodeVal (f + 1) (encode (.simple s) ++ rest) = some (.simple s, rest)
        simp only [encode, List.cons_append, List.append_assoc, List.nil_append]
        rw [decodeVal_plus, readLine_append _ _ hcr]
        rfl
      | err s =>
        have hcr : '\r' ∉ s := noCRLF_not_cr (by simpa [validB] using hv)
        show decodeVal (f + 1) (encode (.err s) ++ rest) = some (.err s, rest)
        simp only [encode, List.cons_append, List.append_assoc, List.nil_append]
        rw [decodeVal_dash, readLine_append _ _ hcr]
        rfl
      | integer i =>
        show decodeVal (f + 1) (encode (.integer i) ++ rest) = some (.integer i, rest)
        simp only [encode, List.cons_append, List.append_assoc, List.nil_append]
        rw [decodeVal_colon, readLine_append _ _ (not_cr_intToChars i)]
        simp only [Option.bind]
        rw [parseInt_intToChars]
        rfl
      | bulk s =>
        show decodeVal (f + 1) (encode (.bulk s) ++ rest) = some (.bulk s, rest)
        simp only [encode, List.cons_append, List.append_assoc, List.nil_append]
        rw [decodeVal_dollar, readLine_append _ _ (not_cr_natToDigits _)]
        simp only [Option.bind]
        rw [parseInt_natToDigits]
        simp only [Option.bind]
        rw [if_neg (by omega), if_neg (by omega), Int.toNat_natCast]
        exact bulkTail_exact s rest
      | nullBulk =>
        show decodeVal (f + 1) (encode .nullBulk ++ rest) = some (.nullBulk, rest)
        rfl
      | array items =>
        have hvl : validListB items = true := by simpa [validB] using hv
        have hsz : sizeList items ≤ f := by
          simp only [size] at hs
          omega
        show decodeVal (f + 1) (encode (.array items) ++ rest) = some (.array items, rest)
        simp only [encode, List.cons_append, List.append_assoc, List.nil_append]
        rw [decodeVal_star, readLine_append _ _ (not_cr_natToDigits _)]
        simp only [Option.bind]
        rw [parseInt_natToDigits]
        simp only [Option.bind]
        rw [if_neg (by omega), if_neg (by omega), Int.toNat_natCast]
        rw [ih.2 items hvl rest hsz]
        rfl
      | nullArray =>
        show decodeVal (f + 1) (encode .nullArray ++ rest) = some (.nullArray, rest)
        rfl
    · intro items hv rest hs
      cases items with
      | nil =>
        show decodeList (f + 1) 0 (encodeList [] ++ rest) = some ([], rest)
        rfl
      | cons v vs =>
        have hvv : validB v = true ∧ validListB vs = true := by
          simpa [validListB, Bool.and_eq_true] using hv
        have hsv : size v ≤ f := by
          simp only [sizeList] at hs
          have := sizeList_pos vs
          omega
        have hsvs : sizeList vs ≤ f := by
          simp only [sizeList] at hs
          have := size_pos v
          omega
        show decodeList (f + 1) (v :: vs).length (encodeList (v :: vs) ++ rest)
          = some (v :: vs, rest)
        simp only [encodeList, List.length_cons, List.append_assoc]
        rw [decodeList_succ, ih.1 v hvv.1 (encodeList vs ++ rest) hsv]
        simp only [Option.bind]
        rw [ih.2 vs hvv.2 rest hsvs]
        rfl

/-- A sample reply exercising every constructor, for the witness below. -/
def sampleReply : Reply :=
  .array [.simple ['O', 'K'], .integer (-57), .bulk ['a', '\r', 'b'],
    .nullBulk, .nullArray, .err ['E'], .integer 0, .array [.bulk []]]

/-- Claim C7: codec round-trip. For every supported reply value v (line
payloads of simple strings and errors free of CR LF, as the framing
requires), decoding the encoding of v yields v exactly and consumes the
whole wire form. -/
theorem c7_codec_roundtrip (v : Reply) (hv : validB v = true) :
    decode (encode v) = some v := by
  unfold decode
  have hle := size_le_encode v
  have h := (decode_encode_aux ((encode v).length + 1)).1 v hv [] (by omega)
  rw [List.append_nil] at h
  rw [h]

/-- Witness for claim C7 at a concrete reply exercising every
constructor. -/
theorem c7_codec_roundtrip_witness :
    validB sampleReply = true
    ∧ decode (encode sampleReply) = some sampleReply :=
  ⟨rfl, c7_codec_roundtrip sampleReply rfl⟩

end Codec

/-!
Modelled from the spec: the repository has no transaction context yet
(the spec describes it in its section 4.5 and the README lists MULTI and
EXEC as future work), so the per-connection transaction gate below is
modelled from the words of the spec: BEGIN starts queueing, DISCARD drops
the queue, a syntactically invalid command seen while queueing is rejected
and marks the transaction tainted, COMMIT on a tainted transaction resets
the context and returns an AbortedTransactionError while executing
nothing, and COMMIT on a clean transaction executes the queue in order.
The store type, the command type and the handler reply type are abstract
parameters: the gate threads the store through the handlers and never
inspects it, so an unchanged store is unchanged for every store type.
-/

namespace Tx

/-- A command as the transaction gate sees it: the three markers, or any
other command. -/
inductive TxCmd (C : Type) where
  | begin
  | discard
  | commit
  | plain (c : C)

/-- The reply of the transaction gate for one command. -/
inductive TxReply (R : Type) where
  | ok
  | queued
  | commandError
  | nestedError
  | noTx
  | aborted
  | results (rs : List R)
deriving DecidableEq

/-- Per-connection transaction state: the queueing flag, the queued
commands in order, and the tainted flag. -/
structure TxCtx (C : Type) where
  queueing : Bool
  queue : List C
  tainted : Bool
deriving DecidableEq

/-- The state of a fresh connection: INACTIVE, empty queue, untainted. -/
def initCtx {C : Type} : TxCtx C := ⟨false, [], false⟩

/-- Execute queued commands in order against the store, collecting each
reply. -/
def execQueue {S C R : Type} (exec : S → C → S × R) : S → List C → S × List R
  | s, [] => (s, [])
  | s, c :: cs =>
    let p := exec s c
    let q := execQueue exec p.1 cs
    (q.1, p.2 :: q.2)

/-- Modelled from the spec: one step of the transaction gate. ok is the
syntax check of the dispatcher (known command, arity in range); exec is
the dispatcher execution of one command against the store. -/
def gateStep {S C R : Type} (ok : C → Bool) (exec : S → C → S × R)
    (st : S × TxCtx C) : TxCmd C → (S × TxCtx C) × TxReply R
  | .begin =>
    if st.2.queueing then (st, .nestedError)
    else ((st.1, ⟨true, [], false⟩), .ok)
  | .discard =>
    if st.2.queueing then ((st.1, ⟨false, [], false⟩), .ok)
    else (st, .noTx)
  | .commit =>
    if st.2.queueing then
      if st.2.tainted then ((st.1, ⟨false, [], false⟩), .aborted)
      else
        let p := execQueue exec st.1 st.2.queue
        ((p.1, ⟨false, [], false⟩), .results p.2)
    else (st, .noTx)
  | .plain c =>
    if st.2.queueing then
      if ok c then ((st.1, ⟨true, st.2.queue ++ [c], st.2.tainted⟩), .queued)
      else ((st.1, ⟨true, st.2.queue, true⟩), .commandError)
    else
      if ok c then
        let p := exec st.1 c
        ((p.1, st.2), .results [p.2])
      else (st, .commandError)

/-- Run the gate over a sequence of commands, collecting the replies. -/
def runGate {S C R : Type} (ok : C → Bool) (exec : S → C → S × R) :
    S × TxCtx C → List (TxCmd C) → (S × TxCtx C) × List (TxReply R)
  | st, [] => (st, [])
  | st, cmd :: cmds =>
    let p := gateStep ok exec st cmd
    let q := runGate ok exec p.1 cmds
    (q.1, p.2 :: q.2)

lemma runGate_append {S C R : Type} (ok : C → Bool) (exec : S → C → S × R) :
    ∀ (l1 l2 : List (TxCmd C)) (st : S × TxCtx C),
      runGate ok exec st (l1 ++ l2)
        = ((runGate ok exec (runGate ok exec st l1).1 l2).1,
            (runGate ok exec st l1).2
              ++ (runGate ok exec (runGate ok exec st l1).1 l2).2) := by
  intro l1
  induction l1 with
  | nil => intro l2 st; simp [runGate]
  | cons c cl ih => intro l2 st; simp [runGate, ih]

lemma runGate_plains {S C R : Type} (ok : C → Bool) (exec : S → C → S × R) :
    ∀ (cs : List C) (s : S) (q : List C) (t : Bool),
      (runGate ok exec (s, ⟨true, q, t⟩) (cs.map TxCmd.plain)).1.1 = s
      ∧ (runGate ok exec (s, ⟨true, q, t⟩) (cs.map TxCmd.plain)).1.2.queueing = true
      ∧ (runGate ok exec (s, ⟨true, q, t⟩) (cs.map TxCmd.plain)).1.2.tainted
          = (t || cs.any (fun c => !(ok c))) := by
  intro cs
  induction cs with
  | nil =>
    intro s q t
    refine ⟨rfl, rfl, ?_⟩
    simp [runGate]
  | cons c cl ih =>
    intro s q t
    by_cases h : ok c
    · have hstep : gateStep ok exec (s, ⟨true, q, t⟩) (.plain c)
          = ((s, ⟨true, q ++ [c], t⟩), .queued) := by
        simp [gateStep, h]
      simp only [List.map_cons, runGate, hstep]
      have := ih s (q ++ [c]) t
      refine ⟨this.1, this.2.1, ?_⟩
      rw [this.2.2]
      simp [h]
    · have hok : ok c = false := by revert h; cases ok c <;> simp
      have hstep : gateStep ok exec (s, ⟨true, q, t⟩) (.plain c)
          = ((s, ⟨true, q, true⟩), .commandError) := by
        simp [gateStep, hok]
      simp only [List.map_cons, runGate, hstep]
      have := ih s q true
      refine ⟨this.1, this.2.1, ?_⟩
      rw [this.2.2]
      simp [hok]

end Tx

/-- Claim C8: for every transaction whose queue was marked tainted by a
syntactically invalid command, COMMIT executes none of the queued
commands (the store is returned unchanged, for every store type and every
handler) and the reply of the COMMIT is the AbortedTransactionError. The
trace starts a transaction, feeds the commands of cs (at least one of
which fails the syntax check), then commits. -/
theorem c8_tainted_commit_atomic_abort {S C R : Type}
    (ok : C → Bool) (exec : S → C → S × R) (s : S) (cs : List C)
    (h : ∃ c ∈ cs, ok c = false) :
    (Tx.runGate ok exec (s, Tx.initCtx)
        (Tx.TxCmd.begin :: (cs.map Tx.TxCmd.plain ++ [Tx.TxCmd.commit]))).1.1 = s
    ∧ (Tx.runGate ok exec (s, Tx.initCtx)
        (Tx.TxCmd.begin :: (cs.map Tx.TxCmd.plain ++ [Tx.TxCmd.commit]))).2.getLast?
        = some Tx.TxReply.aborted := by
  have hany : cs.any (fun c => !(ok c)) = true := by
    rw [List.any_eq_true]
    obtain ⟨c, hc, hok⟩ := h
    exact ⟨c, hc, by rw [hok]; rfl⟩
  have hb : Tx.gateStep ok exec (s, Tx.initCtx) Tx.TxCmd.begin
      = ((s, ⟨true, [], false⟩), .ok) := rfl
  have hplains := Tx.runGate_plains ok exec cs s [] false
  have hq := hplains.2.1
  have ht : (Tx.runGate ok exec (s, ⟨true, [], false⟩)
      (cs.map Tx.TxCmd.plain)).1.2.tainted = true := by
    rw [hplains.2.2, hany]
    simp
  have hcommit : Tx.gateStep ok exec
      (Tx.runGate ok exec (s, ⟨true, [], false⟩) (cs.map Tx.TxCmd.plain)).1
      Tx.TxCmd.commit
      = (((Tx.runGate ok exec (s, ⟨true, [], false⟩) (cs.map Tx.TxCmd.plain)).1.1,
          ⟨false, [], false⟩), .aborted) := by
    simp [Tx.gateStep, hq, ht]
  simp only [Tx.runGate, hb]
  rw [Tx.runGate_append ok exec (cs.map Tx.TxCmd.plain) [Tx.TxCmd.commit]]
  constructor
  · simp only [Tx.runGate, hcommit]
    exact hplains.1
  · simp only [Tx.runGate, hcommit]
    rw [← List.cons_append]
    exact List.getLast?_concat _

/-- Witness for claim C8 at concrete types: a Nat store, Nat commands
where the syntax check rejects the command 7, and a handler that adds the
command to the store. -/
theorem c8_tainted_commit_atomic_abort_witness :
    (∃ c ∈ [3, 7], (fun c => decide (c ≠ 7)) c = false)
    ∧ ((Tx.runGate (fun c => decide (c ≠ 7)) (fun s c => (s + c, c)) (100, Tx.initCtx)
          (Tx.TxCmd.begin :: ([3, 7].map Tx.TxCmd.plain ++ [Tx.TxCmd.commit]))).1.1 = 100
        ∧ (Tx.runGate (fun c => decide (c ≠ 7)) (fun s c => (s + c, c)) (100, Tx.initCtx)
            (Tx.TxCmd.begin :: ([3, 7].map Tx.TxCmd.plain ++ [Tx.TxCmd.commit]))).2.getLast?
          = some Tx.TxReply.aborted) :=
  ⟨⟨7, by decide, by decide⟩,
    c8_tainted_commit_atomic_abort (fun c => decide (c ≠ 7)) (fun s c => (s + c, c))
      100 [3, 7] ⟨7, by decide, by decide⟩⟩

end Orca
